import Mathlib

/-!
Shallow embedding of `Thiht/logrus-opsgenie-hook` (`main.go`), a logrus hook
that converts log entries into OpsGenie alert-creation payloads.

Go dynamic values stored in a logrus entry's `Data` map are embedded as the
sum type `FieldValue`; a Go type assertion such as `v.(string)` corresponds to
matching one constructor.  Machine integers are embedded as `Nat` with
explicit bounds where they matter (the CRC-32 state stays below `2 ^ 32`).
The OpsGenie SDK client is external to the repository; `Fire` is embedded as
the payload-building step plus explicit state passing of the hook value, which
the Go code never mutates.
-/

namespace OpsgenieHook

/-- `alertsv2.Priority` is a string type in the OpsGenie SDK. -/
abbrev Priority := String

def P1 : Priority := "P1"

def P2 : Priority := "P2"

def P3 : Priority := "P3"

def P4 : Priority := "P4"

def P5 : Priority := "P5"

/-- `isValidPriority` from `main.go`: a priority is valid iff it is P1..P5. -/
def isValidPriority (priority : Priority) : Bool :=
  priority == P1 ||
    priority == P2 ||
    priority == P3 ||
    priority == P4 ||
    priority == P5

/-- `alertsv2.Team` from the SDK, reduced to the fields this repository uses
(the hook only ever sets the name). -/
structure Team where
  name : String
deriving DecidableEq, Repr

/-- `EndpointEU` from `main.go`. -/
def EndpointEU : String := "https://api.eu.opsgenie.com"

/-- `EndpointUS` from `main.go`. -/
def EndpointUS : String := "https://api.opsgenie.com"

/-- The reserved override namespace marker, `OverridePrefix` in `main.go`
("ogh" stands for OpsGenie Hook). -/
def overridePfx : String := "ogh:"

def OverrideAlias : String := overridePfx ++ "alias"

def OverrideSource : String := overridePfx ++ "source"

def OverrideTags : String := overridePfx ++ "tags"

def OverrideEntity : String := overridePfx ++ "entity"

def OverridePriority : String := overridePfx ++ "priority"

/-- A dynamically typed value stored in a logrus `Entry.Data` map
(`map[string]interface{}` in Go).  Each constructor is one Go dynamic type
relevant to the hook's type assertions; `other` covers every remaining type,
carrying its `fmt.Sprintf "%v"` rendering. -/
inductive FieldValue where
  /-- a Go `string` -/
  | str (s : String)
  /-- a Go `[]string` -/
  | strList (l : List String)
  /-- an `alertsv2.Priority` (distinct dynamic type from plain `string`) -/
  | priority (p : Priority)
  /-- a non-nil Go `error` value whose `Error()` method returns `msg` -/
  | err (msg : String)
  /-- a Go integer -/
  | int (n : Int)
  /-- any other dynamic type, with its `%v` rendering -/
  | other (rendering : String)
deriving DecidableEq, Repr

/-- `fmt.Sprintf "%v"` on an embedded dynamic value: strings print verbatim,
string slices print space-separated in brackets, `error` values print via
`Error()`, integers print in decimal. -/
def formatValue : FieldValue → String
  | FieldValue.str s => s
  | FieldValue.strList l => "[" ++ String.intercalate " " l ++ "]"
  | FieldValue.priority p => p
  | FieldValue.err msg => msg
  | FieldValue.int n => toString n
  | FieldValue.other rendering => rendering

/-- A logrus `Entry`, reduced to the parts the hook reads: the message and the
string-keyed field map.  The map is embedded as an association list; Go maps
have unique keys, and lookup returns the first binding. -/
structure Entry where
  message : String
  data : List (String × FieldValue)
deriving DecidableEq, Repr

/-- Go map read `entry.Data[key]`: `some v` when the key is bound, `none` when
absent (in Go, a nil interface on which every type assertion fails). -/
def Entry.get (entry : Entry) (key : String) : Option FieldValue :=
  match entry.data.find? (fun kv => kv.1 == key) with
  | some kv => some kv.2
  | none => none

/-- `HookConfig` from `main.go`.  Go slice fields can be nil; `none` embeds a
nil slice and `some` a non-nil one, so that `Validate`'s nil checks are
faithful. -/
structure HookConfig where
  DefaultTeams : Option (List Team)
  DefaultTags : Option (List String)
  DefaultEntity : String
  DefaultSource : String
  DefaultPriority : Priority
deriving DecidableEq, Repr

/-- The errors this repository can produce at construction time. -/
inductive HookError where
  | missingCredential
  | missingEndpoint
  | invalidConfiguration
deriving DecidableEq, Repr

/-- `HookConfig.Validate` from `main.go`: replaces nil slices by empty ones,
defaults an unset priority to P3, then rejects an invalid priority.  The Go
method mutates the receiver and returns an error; the embedding returns the
sanitized config or the error. -/
def HookConfig.Validate (c : HookConfig) : Except HookError HookConfig :=
  let c1 : HookConfig := { c with DefaultTeams := some (c.DefaultTeams.getD []) }
  let c2 : HookConfig := { c1 with DefaultTags := some (c1.DefaultTags.getD []) }
  let c3 : HookConfig :=
    { c2 with DefaultPriority := if c2.DefaultPriority == "" then P3 else c2.DefaultPriority }
  if isValidPriority c3.DefaultPriority then Except.ok c3
  else Except.error HookError.invalidConfiguration

/-- The `hook` struct from `main.go`.  The SDK client is external; the
embedding keeps the credential and endpoint it was built from. -/
structure Hook where
  apiKey : String
  endpoint : String
  config : HookConfig
deriving DecidableEq, Repr

/-- `NewHook` from `main.go`: rejects an empty api key, then an empty
endpoint, then propagates the validation error; otherwise returns the ready
hook.  The SDK client construction (`cli.AlertV2()`) is external and performs
no validation of its own once the key and endpoint are non-empty. -/
def NewHook (apiKey endpoint : String) (config : HookConfig) : Except HookError Hook :=
  if apiKey == "" then Except.error HookError.missingCredential
  else if endpoint == "" then Except.error HookError.missingEndpoint
  else
    match config.Validate with
    | Except.error e => Except.error e
    | Except.ok c => Except.ok { apiKey := apiKey, endpoint := endpoint, config := c }

/-! CRC-32 (IEEE), the bitwise formulation of Go's `crc32.ChecksumIEEE`:
state starts at `0xFFFFFFFF`, each byte is xor-ed into the low bits and the
state is stepped eight times with the reflected polynomial `0xEDB88320`, and
the final state is inverted (embedded as xor with `0xFFFFFFFF`). -/

def crc32Poly : Nat := 0xEDB88320

/-- One bit step of the reflected CRC-32: shift right, conditionally xor the
polynomial. -/
def crc32Round (crc : Nat) : Nat :=
  if crc % 2 == 1 then (crc / 2) ^^^ crc32Poly else crc / 2

/-- Process one input byte: xor it into the state, then eight bit steps. -/
def crc32Byte (crc b : Nat) : Nat :=
  crc32Round^[8] (crc ^^^ b)

/-- `crc32.ChecksumIEEE` over a byte sequence. -/
def crc32 (bytes : List Nat) : Nat :=
  0xFFFFFFFF ^^^ bytes.foldl crc32Byte 0xFFFFFFFF

/-- UTF-8 encoding of one character, as byte values; Go's `[]byte(s)`
conversion yields the UTF-8 bytes of the string. -/
def charUtf8 (c : Char) : List Nat :=
  let n := c.toNat
  if n < 0x80 then [n]
  else if n < 0x800 then [0xC0 + n / 0x40, 0x80 + n % 0x40]
  else if n < 0x10000 then
    [0xE0 + n / 0x1000, 0x80 + n / 0x40 % 0x40, 0x80 + n % 0x40]
  else [0xF0 + n / 0x40000, 0x80 + n / 0x1000 % 0x40, 0x80 + n / 0x40 % 0x40, 0x80 + n % 0x40]

/-- The UTF-8 bytes of a string, `[]byte(s)` in Go. -/
def utf8Bytes (s : String) : List Nat :=
  s.data.foldr (fun c acc => charUtf8 c ++ acc) []

/-- Fuel-driven digit accumulator behind `toHex`: pushes the low hex digit of
`n` onto `ds` and recurses on `n / 16` while digits remain.  `fuel := n + 1`
always suffices because `n / 16 < n` for `n ≥ 16`. -/
def toHexCore : Nat → Nat → List Char → List Char
  | 0, _, ds => ds
  | fuel + 1, n, ds =>
    if n < 16 then Nat.digitChar n :: ds
    else toHexCore fuel (n / 16) (Nat.digitChar (n % 16) :: ds)

/-- Hex digits of `n`, most significant first, no leading zeros, `['0']` for
zero — the digit sequence `strconv.FormatUint(n, 16)` produces.
`Nat.digitChar` renders 10..15 as the lowercase letters a..f. -/
def toHex (n : Nat) : List Char :=
  toHexCore (n + 1) n []

/-- `strconv.FormatUint(n, 16)`: lowercase hexadecimal, no padding. -/
def formatUintHex (n : Nat) : String :=
  String.mk (toHex n)

/-- `hook.alias` from `main.go`: the `ogh:alias` field verbatim when it is
bound to a `string`, otherwise the CRC-32 checksum of the message bytes in
lowercase hex. -/
def Hook.alias (_h : Hook) (entry : Entry) : String :=
  match entry.get OverrideAlias with
  | some (FieldValue.str s) => s
  | _ => formatUintHex (crc32 (utf8Bytes entry.message))

/-- `hook.description` from `main.go`: the message, with `"\n" ++ Error()`
appended when the `error` field holds a (non-nil) `error` value. -/
def Hook.description (_h : Hook) (entry : Entry) : String :=
  match entry.get "error" with
  | some (FieldValue.err msg) => entry.message ++ "\n" ++ msg
  | _ => entry.message

/-- `hook.teams` from `main.go`.  The Go loop appends `&team`, the address of
the single per-loop range variable (the repository carries no `go` directive
selecting the Go 1.22 per-iteration semantics), so every appended pointer
denotes the value that variable holds when the payload is consumed after the
loop: the last element.  The embedding records the denoted team values. -/
def Hook.teams (h : Hook) (_entry : Entry) : List Team :=
  let ts := h.config.DefaultTeams.getD []
  match ts.getLast? with
  | none => []
  | some lastTeam => ts.map (fun _ => lastTeam)

/-- `hook.tags` from `main.go`: the configured default tags, with the
`ogh:tags` field appended when it is bound to a `[]string`.  The Go `append`
never changes the `DefaultTags` slice header held in the config, so the hook
state is unchanged. -/
def Hook.tags (h : Hook) (entry : Entry) : List String :=
  let tags := h.config.DefaultTags.getD []
  match entry.get OverrideTags with
  | some (FieldValue.strList l) => tags ++ l
  | _ => tags

/-- Go's `strings.HasPrefix`, a byte-level test.  On UTF-8 strings with an
all-ASCII pattern (the only pattern used here is `"ogh:"`) the byte-level and
character-level tests agree, so the embedding compares character sequences. -/
def goHasPfx (s pat : String) : Bool :=
  pat.data.isPrefixOf s.data

/-- `hook.details` from `main.go`: every entry field whose key does not start
with `"ogh:"`, rendered with `%v`.  Go builds a fresh `map[string]string`; the
embedding keeps the association-list form (entry keys are unique). -/
def Hook.details (_h : Hook) (entry : Entry) : List (String × String) :=
  (entry.data.filter (fun kv => !(goHasPfx kv.1 overridePfx))).map
    (fun kv => (kv.1, formatValue kv.2))

/-- `hook.entity` from `main.go`. -/
def Hook.entity (h : Hook) (entry : Entry) : String :=
  match entry.get OverrideEntity with
  | some (FieldValue.str s) => s
  | _ => h.config.DefaultEntity

/-- `hook.source` from `main.go`. -/
def Hook.source (h : Hook) (entry : Entry) : String :=
  match entry.get OverrideSource with
  | some (FieldValue.str s) => s
  | _ => h.config.DefaultSource

/-- `hook.priority` from `main.go`: the `ogh:priority` field when it is bound
to an `alertsv2.Priority` value and that value is valid, else the configured
default. -/
def Hook.priority (h : Hook) (entry : Entry) : Priority :=
  match entry.get OverridePriority with
  | some (FieldValue.priority p) => if isValidPriority p then p else h.config.DefaultPriority
  | _ => h.config.DefaultPriority

/-- `alertsv2.CreateAlertRequest`, reduced to the fields `Fire` sets.  Teams
holds the team values the appended `TeamRecipient` pointers denote at
submission time. -/
structure CreateAlertRequest where
  Message : String
  Alias : String
  Description : String
  Teams : List Team
  Tags : List String
  Details : List (String × String)
  Entity : String
  Source : String
  Priority : Priority
deriving DecidableEq, Repr

/-- The payload `hook.Fire` assembles for one entry. -/
def Hook.buildAlert (h : Hook) (entry : Entry) : CreateAlertRequest :=
  { Message := entry.message
    Alias := h.alias entry
    Description := h.description entry
    Teams := h.teams entry
    Tags := h.tags entry
    Details := h.details entry
    Entity := h.entity entry
    Source := h.source entry
    Priority := h.priority entry }

/-- `hook.Fire` with explicit state passing: the payload handed to the SDK
client, and the hook value after the call.  The Go method never assigns to
`h.client` or `h.config`, so the state after the call is the state before. -/
def Hook.Fire (h : Hook) (entry : Entry) : CreateAlertRequest × Hook :=
  (h.buildAlert entry, h)

/-! Helper lemmas. -/

theorem xor_lt_two_pow32 {a b : Nat} (ha : a < 2 ^ 32) (hb : b < 2 ^ 32) :
    a ^^^ b < 2 ^ 32 :=
  Nat.bitwise_lt ha hb

theorem crc32Round_lt {crc : Nat} (h : crc < 2 ^ 32) : crc32Round crc < 2 ^ 32 := by
  unfold crc32Round
  split
  · exact xor_lt_two_pow32 (by omega) (by norm_num [crc32Poly])
  · omega

theorem crc32Round_iter_lt (k : Nat) {crc : Nat} (h : crc < 2 ^ 32) :
    crc32Round^[k] crc < 2 ^ 32 := by
  induction k generalizing crc with
  | zero => simpa using h
  | succ m ih =>
    rw [Function.iterate_succ_apply]
    exact ih (crc32Round_lt h)

theorem crc32Byte_lt {crc b : Nat} (h : crc < 2 ^ 32) (hb : b < 2 ^ 32) :
    crc32Byte crc b < 2 ^ 32 :=
  crc32Round_iter_lt 8 (xor_lt_two_pow32 h hb)

theorem crc32_foldl_lt {bytes : List Nat} {crc : Nat} (h : crc < 2 ^ 32)
    (hb : ∀ b ∈ bytes, b < 2 ^ 32) : bytes.foldl crc32Byte crc < 2 ^ 32 := by
  induction bytes generalizing crc with
  | nil => simpa using h
  | cons x xs ih =>
    simp only [List.foldl_cons]
    exact ih (crc32Byte_lt h (hb x (by simp))) (fun b hbm => hb b (by simp [hbm]))

theorem crc32_lt {bytes : List Nat} (hb : ∀ b ∈ bytes, b < 2 ^ 32) :
    crc32 bytes < 2 ^ 32 := by
  unfold crc32
  exact xor_lt_two_pow32 (by norm_num) (crc32_foldl_lt (by norm_num) hb)

theorem char_toNat_lt_two_pow32 (c : Char) : c.toNat < 2 ^ 32 := by
  have h := UInt32.toNat_lt_size c.val
  norm_num [UInt32.size] at h
  exact h

theorem charUtf8_lt {c : Char} {b : Nat} (hb : b ∈ charUtf8 c) : b < 2 ^ 32 := by
  have hc := char_toNat_lt_two_pow32 c
  simp only [charUtf8] at hb
  split_ifs at hb <;> simp_all <;> omega

theorem utf8BytesAux_lt {cs : List Char} {b : Nat}
    (hb : b ∈ cs.foldr (fun c acc => charUtf8 c ++ acc) []) : b < 2 ^ 32 := by
  induction cs with
  | nil => simp at hb
  | cons c cs ih =>
    simp only [List.foldr_cons, List.mem_append] at hb
    rcases hb with hb | hb
    · exact charUtf8_lt hb
    · exact ih hb

theorem utf8Bytes_lt {s : String} {b : Nat} (hb : b ∈ utf8Bytes s) : b < 2 ^ 32 :=
  utf8BytesAux_lt hb

theorem digitChar_mem_hex {n : Nat} (h : n < 16) :
    Nat.digitChar n ∈ ("0123456789abcdef").data := by
  interval_cases n <;> decide

theorem toHexCore_mem_hex (fuel : Nat) : ∀ (n : Nat) (ds : List Char),
    (∀ c ∈ ds, c ∈ ("0123456789abcdef").data) →
    ∀ c ∈ toHexCore fuel n ds, c ∈ ("0123456789abcdef").data := by
  induction fuel with
  | zero => exact fun n ds hds c hc => hds c hc
  | succ m ih =>
    intro n ds hds c hc
    unfold toHexCore at hc
    split at hc
    · rcases List.mem_cons.mp hc with h | h
      · subst h; exact digitChar_mem_hex (by omega)
      · exact hds c h
    · refine ih (n / 16) _ ?_ c hc
      intro d hd
      rcases List.mem_cons.mp hd with h | h
      · subst h; exact digitChar_mem_hex (by omega)
      · exact hds d h

theorem toHex_mem_hex {n : Nat} {c : Char} (hc : c ∈ toHex n) :
    c ∈ ("0123456789abcdef").data := by
  unfold toHex at hc
  exact toHexCore_mem_hex (n + 1) n [] (by simp) c hc

/-- When the `ogh:alias` field is not bound to a `string`, the alias is the
lowercase hex rendering of the CRC-32 of the message bytes. -/
theorem alias_no_override (h : Hook) (e : Entry)
    (hno : ∀ s, e.get OverrideAlias ≠ some (FieldValue.str s)) :
    h.alias e = formatUintHex (crc32 (utf8Bytes e.message)) := by
  cases hE : e.get OverrideAlias with
  | none => simp [Hook.alias, hE]
  | some fv =>
    cases fv with
    | str s => exact absurd hE (hno s)
    | strList l => simp [Hook.alias, hE]
    | priority p => simp [Hook.alias, hE]
    | err msg => simp [Hook.alias, hE]
    | int n => simp [Hook.alias, hE]
    | other r => simp [Hook.alias, hE]

/-- Shared concrete configuration for the witnesses: validated shape, all
defaults empty, priority P3. -/
def cfgEmpty : HookConfig :=
  { DefaultTeams := some [], DefaultTags := some [], DefaultEntity := "",
    DefaultSource := "", DefaultPriority := P3 }

/-- Shared concrete hook for the witnesses. -/
def hookEmpty : Hook :=
  { apiKey := "key", endpoint := EndpointEU, config := cfgEmpty }

/-- Claim C2: if the event's field map binds the alias-override key to a
string, the payload alias is that string verbatim; otherwise the alias is the
CRC-32 (IEEE) checksum of the message bytes rendered in lowercase hexadecimal
(a 32-bit value, every character a lowercase hex digit), and recomputing the
alias for the same message without an override yields the same string. -/
theorem alias_spec (h h' : Hook) (e e' : Entry) :
    (∀ s, e.get OverrideAlias = some (FieldValue.str s) → h.alias e = s) ∧
    ((∀ s, e.get OverrideAlias ≠ some (FieldValue.str s)) →
      h.alias e = formatUintHex (crc32 (utf8Bytes e.message)) ∧
      crc32 (utf8Bytes e.message) < 2 ^ 32 ∧
      (∀ c ∈ (h.alias e).data, c ∈ ("0123456789abcdef").data) ∧
      (e'.message = e.message → (∀ s, e'.get OverrideAlias ≠ some (FieldValue.str s)) →
        h'.alias e' = h.alias e)) := by
  constructor
  · intro s hs
    simp [Hook.alias, hs]
  · intro hno
    have h1 := alias_no_override h e hno
    refine ⟨h1, crc32_lt (fun b hb => utf8Bytes_lt hb), ?_, ?_⟩
    · intro c hc
      rw [h1] at hc
      exact toHex_mem_hex hc
    · intro hmsg hno'
      rw [alias_no_override h' e' hno', h1, hmsg]

set_option maxRecDepth 100000 in
/-- Witness for C2: the hook with no overrides on the message `"disk full"`
produces the alias `"976b6e01"`, the lowercase hex CRC-32 of the message. -/
theorem alias_spec_witness :
    hookEmpty.alias { message := "disk full", data := [] } = "976b6e01" := by
  have h := (alias_spec hookEmpty hookEmpty { message := "disk full", data := [] }
      { message := "disk full", data := [] }).2 (fun s hs => Option.noConfusion hs)
  rw [h.1]
  decide

/-- Claim C3: the payload priority is the priority-override field exactly when
it is bound with the priority dynamic type and is one of P1..P5; with the
field absent, of the wrong dynamic type, or invalid, the priority is the
configured default.  The embedded `Hook.priority` is total (its codomain is
`Priority`, not an error monad), so no malformed override raises an error. -/
theorem priority_override_spec (h : Hook) (e : Entry) :
    (∀ p, e.get OverridePriority = some (FieldValue.priority p) →
      isValidPriority p = true → h.priority e = p) ∧
    (∀ p, e.get OverridePriority = some (FieldValue.priority p) →
      isValidPriority p = false → h.priority e = h.config.DefaultPriority) ∧
    ((∀ p, e.get OverridePriority ≠ some (FieldValue.priority p)) →
      h.priority e = h.config.DefaultPriority) := by
  refine ⟨?_, ?_, ?_⟩
  · intro p hp hv
    simp [Hook.priority, hp, hv]
  · intro p hp hv
    simp [Hook.priority, hp, hv]
  · intro hno
    cases hE : e.get OverridePriority with
    | none => simp [Hook.priority, hE]
    | some fv =>
      cases fv with
      | priority p => exact absurd hE (hno p)
      | str s => simp [Hook.priority, hE]
      | strList l => simp [Hook.priority, hE]
      | err msg => simp [Hook.priority, hE]
      | int n => simp [Hook.priority, hE]
      | other r => simp [Hook.priority, hE]

/-- Witness for C3: an override bound to the invalid priority value `"P9"` is
silently ignored and the configured default P3 is used. -/
theorem priority_override_spec_witness :
    hookEmpty.priority { message := "m", data := [(OverridePriority, FieldValue.priority "P9")] }
      = P3 := by
  have h := (priority_override_spec hookEmpty
      { message := "m", data := [(OverridePriority, FieldValue.priority "P9")] }).2.1
      "P9" (by decide) (by decide)
  exact h

/-- Shared concrete hook for the tag witnesses: default tags `["infra"]`. -/
def hookInfra : Hook :=
  { apiKey := "key", endpoint := EndpointEU,
    config := { cfgEmpty with DefaultTags := some ["infra"] } }

/-- Shared concrete entry for the tag witnesses: tags override `["urgent"]`. -/
def entryUrgent : Entry :=
  { message := "m", data := [(OverrideTags, FieldValue.strList ["urgent"])] }

/-- Claim C4: with a tags-override field bound to a string sequence, the
payload tag list is the configured default tags followed by the override tags
in order; otherwise it is the configured default tags. -/
theorem tags_append_spec (h : Hook) (e : Entry) (dts : List String)
    (hd : h.config.DefaultTags = some dts) :
    (∀ l, e.get OverrideTags = some (FieldValue.strList l) → h.tags e = dts ++ l) ∧
    ((∀ l, e.get OverrideTags ≠ some (FieldValue.strList l)) → h.tags e = dts) := by
  constructor
  · intro l hl
    simp [Hook.tags, hl, hd]
  · intro hno
    cases hE : e.get OverrideTags with
    | none => simp [Hook.tags, hE, hd]
    | some fv =>
      cases fv with
      | strList l => exact absurd hE (hno l)
      | str s => simp [Hook.tags, hE, hd]
      | priority p => simp [Hook.tags, hE, hd]
      | err msg => simp [Hook.tags, hE, hd]
      | int n => simp [Hook.tags, hE, hd]
      | other r => simp [Hook.tags, hE, hd]

/-- Witness for C4: default tags `["infra"]` with override `["urgent"]` yield
`["infra", "urgent"]` — append, not replace. -/
theorem tags_append_spec_witness :
    hookInfra.tags entryUrgent = ["infra", "urgent"] := by
  exact (tags_append_spec hookInfra entryUrgent ["infra"] rfl).1 ["urgent"] (by decide)

/-- Claim C1: across two successive `Fire` calls, the first carrying a tags
override and the second carrying none, the first call's payload appends the
override to the defaults, the hook state is unchanged, and the second call's
payload tag list is exactly the configured default tag list. -/
theorem fire_tags_isolation (h : Hook) (e1 e2 : Entry) (l : List String)
    (h1 : e1.get OverrideTags = some (FieldValue.strList l))
    (h2 : e2.get OverrideTags = none) :
    (h.Fire e1).1.Tags = h.config.DefaultTags.getD [] ++ l ∧
    (h.Fire e1).2 = h ∧
    ((h.Fire e1).2.Fire e2).1.Tags = h.config.DefaultTags.getD [] := by
  refine ⟨?_, rfl, ?_⟩
  · simp [Hook.Fire, Hook.buildAlert, Hook.tags, h1]
  · simp [Hook.Fire, Hook.buildAlert, Hook.tags, h2]

/-- Witness for C1: after firing an event with tags override `["urgent"]`, a
second event with no override still observes the default tags `["infra"]`. -/
theorem fire_tags_isolation_witness :
    ((hookInfra.Fire entryUrgent).2.Fire { message := "m2", data := [] }).1.Tags
      = ["infra"] := by
  exact (fire_tags_isolation hookInfra entryUrgent { message := "m2", data := [] }
    ["urgent"] (by decide) (by decide)).2.2

/-- Claim C5: the details of the built payload are exactly the entry fields
whose key does not start with the reserved prefix `"ogh:"`, each value in its
`%v` rendering; no details key starts with the prefix. -/
theorem details_spec (h : Hook) (e : Entry) :
    (∀ k v, (k, v) ∈ h.details e ↔
      (goHasPfx k overridePfx = false ∧ ∃ fv, (k, fv) ∈ e.data ∧ v = formatValue fv)) ∧
    (∀ k v, (k, v) ∈ h.details e → goHasPfx k overridePfx = false) := by
  have main : ∀ k v, (k, v) ∈ h.details e ↔
      (goHasPfx k overridePfx = false ∧ ∃ fv, (k, fv) ∈ e.data ∧ v = formatValue fv) := by
    intro k v
    constructor
    · intro hkv
      simp only [Hook.details, List.mem_map] at hkv
      obtain ⟨⟨k', fv⟩, hk1, hk2⟩ := hkv
      rw [List.mem_filter] at hk1
      obtain ⟨hmem, hkeep⟩ := hk1
      obtain ⟨hk, hv⟩ := Prod.mk.injEq .. ▸ hk2
      subst hk
      exact ⟨by simpa using hkeep, fv, hmem, hv.symm⟩
    · rintro ⟨hks, fv, hmem, rfl⟩
      simp only [Hook.details, List.mem_map]
      exact ⟨(k, fv), List.mem_filter.mpr ⟨hmem, by simp [hks]⟩, rfl⟩
  exact ⟨main, fun k v hkv => ((main k v).mp hkv).1⟩

/-- Shared concrete entry: one plain field and one override-namespaced
field. -/
def entryMixed : Entry :=
  { message := "m",
    data := [("foo", FieldValue.str "bar"), (OverrideAlias, FieldValue.str "x")] }

/-- Witness for C5: the plain field lands in the details. -/
theorem details_spec_witness :
    ("foo", "bar") ∈ hookEmpty.details entryMixed := by
  exact ((details_spec hookEmpty entryMixed).1 "foo" "bar").mpr
    ⟨by decide, FieldValue.str "bar", by decide, rfl⟩

/-- Claim C8: the payload description is the event message, with a newline and
the error's textual representation appended exactly when the `error` field is
bound to a (non-nil) error value. -/
theorem description_error_spec (h : Hook) (e : Entry) :
    (∀ msg, e.get "error" = some (FieldValue.err msg) →
      h.description e = e.message ++ "\n" ++ msg) ∧
    ((∀ msg, e.get "error" ≠ some (FieldValue.err msg)) →
      h.description e = e.message) := by
  constructor
  · intro msg hm
    simp [Hook.description, hm]
  · intro hno
    cases hE : e.get "error" with
    | none => simp [Hook.description, hE]
    | some fv =>
      cases fv with
      | err msg => exact absurd hE (hno msg)
      | str s => simp [Hook.description, hE]
      | strList l => simp [Hook.description, hE]
      | priority p => simp [Hook.description, hE]
      | int n => simp [Hook.description, hE]
      | other r => simp [Hook.description, hE]

/-- Witness for C8: message `"disk full"` with an attached error
`"disk at 99%"` gives the two-line description from the spec scenario. -/
theorem description_error_spec_witness :
    hookEmpty.description
      { message := "disk full", data := [("error", FieldValue.err "disk at 99%")] }
      = "disk full\ndisk at 99%" := by
  have h := (description_error_spec hookEmpty
      { message := "disk full", data := [("error", FieldValue.err "disk at 99%")] }).1
      "disk at 99%" (by decide)
  rw [h]
  decide

/-- Claim C10: an `error` key present in the event field map also appears in
the payload details (with its `%v` rendering), because only keys starting
with the override prefix are excluded. -/
theorem error_field_in_details (h : Hook) (e : Entry) (v : FieldValue)
    (hm : ("error", v) ∈ e.data) :
    ("error", formatValue v) ∈ h.details e := by
  unfold Hook.details
  exact List.mem_map.mpr ⟨("error", v),
    List.mem_filter.mpr ⟨hm, (by decide : (!goHasPfx "error" overridePfx) = true)⟩, rfl⟩

/-- Witness for C10: a concrete entry with an error field has that field in
its details, rendered through `Error()`. -/
theorem error_field_in_details_witness :
    ("error", "disk at 99%") ∈ hookEmpty.details
      { message := "disk full", data := [("error", FieldValue.err "disk at 99%")] } := by
  exact error_field_in_details hookEmpty
    { message := "disk full", data := [("error", FieldValue.err "disk at 99%")] }
    (FieldValue.err "disk at 99%") (by decide)

/-- Case analysis of `Validate`: an unset priority is replaced by P3 and the
call succeeds; a set valid priority is kept and the call succeeds; a set
invalid priority is rejected. -/
theorem validate_cases (c : HookConfig) :
    (c.DefaultPriority = "" ∧ c.Validate = Except.ok
      { c with DefaultTeams := some (c.DefaultTeams.getD []),
               DefaultTags := some (c.DefaultTags.getD []),
               DefaultPriority := P3 }) ∨
    (c.DefaultPriority ≠ "" ∧ isValidPriority c.DefaultPriority = true ∧
      c.Validate = Except.ok
        { c with DefaultTeams := some (c.DefaultTeams.getD []),
                 DefaultTags := some (c.DefaultTags.getD []) }) ∨
    (c.DefaultPriority ≠ "" ∧ isValidPriority c.DefaultPriority = false ∧
      c.Validate = Except.error HookError.invalidConfiguration) := by
  by_cases hP : c.DefaultPriority = ""
  · left
    refine ⟨hP, ?_⟩
    simp [HookConfig.Validate, hP, show isValidPriority P3 = true from by decide]
  · cases hV : isValidPriority c.DefaultPriority with
    | true =>
      right; left
      refine ⟨hP, rfl, ?_⟩
      simp [HookConfig.Validate, hP, hV]
    | false =>
      right; right
      refine ⟨hP, rfl, ?_⟩
      simp [HookConfig.Validate, hP, hV]

/-- Claim C6: after a successful `Validate`, the team and tag lists are
present (the empty sequence when the input was nil) and the priority is one of
P1..P5, with an unset priority replaced by P3; `Validate` fails with the
invalid-configuration error exactly when the priority was set to a value
outside P1..P5. -/
theorem validate_invariant (c : HookConfig) :
    (∀ c', c.Validate = Except.ok c' →
      c'.DefaultTeams = some (c.DefaultTeams.getD []) ∧
      c'.DefaultTags = some (c.DefaultTags.getD []) ∧
      isValidPriority c'.DefaultPriority = true ∧
      (c.DefaultPriority = "" → c'.DefaultPriority = P3)) ∧
    (c.Validate = Except.error HookError.invalidConfiguration ↔
      (c.DefaultPriority ≠ "" ∧ isValidPriority c.DefaultPriority = false)) := by
  rcases validate_cases c with ⟨hP, hok⟩ | ⟨hP, hval, hok⟩ | ⟨hP, hval, herr⟩
  · constructor
    · intro c' hc'
      rw [hok] at hc'
      injection hc' with h
      subst h
      exact ⟨rfl, rfl, (by decide : isValidPriority P3 = true), fun _ => rfl⟩
    · constructor
      · intro hcontra
        rw [hok] at hcontra
        exact Except.noConfusion hcontra
      · rintro ⟨hne, _⟩
        exact absurd hP hne
  · constructor
    · intro c' hc'
      rw [hok] at hc'
      injection hc' with h
      subst h
      exact ⟨rfl, rfl, hval, fun h => absurd h hP⟩
    · constructor
      · intro hcontra
        rw [hok] at hcontra
        exact Except.noConfusion hcontra
      · rintro ⟨_, hinv⟩
        rw [hval] at hinv
        exact Bool.noConfusion hinv
  · constructor
    · intro c' hc'
      rw [herr] at hc'
      exact Except.noConfusion hc'
    · exact ⟨fun _ => ⟨hP, hval⟩, fun _ => herr⟩

/-- Shared concrete configuration with nil sequences and unset priority. -/
def cfgNil : HookConfig :=
  { DefaultTeams := none, DefaultTags := none, DefaultEntity := "",
    DefaultSource := "", DefaultPriority := "" }

/-- Witness for C6: validating the all-unset configuration succeeds, fills the
sequences in as empty, and assigns priority P3. -/
theorem validate_invariant_witness :
    cfgNil.Validate = Except.ok cfgEmpty ∧
    cfgEmpty.DefaultTeams = some [] ∧
    cfgEmpty.DefaultTags = some [] ∧
    isValidPriority cfgEmpty.DefaultPriority = true ∧
    cfgEmpty.DefaultPriority = P3 := by
  have hok : cfgNil.Validate = Except.ok cfgEmpty := rfl
  have h := (validate_invariant cfgNil).1 cfgEmpty hok
  exact ⟨hok, h.1, h.2.1, h.2.2.1, h.2.2.2 rfl⟩

/-- Claim C7: `NewHook` fails with the missing-credential error exactly when
the api key is empty; with a non-empty key it fails with the missing-endpoint
error exactly when the endpoint is empty; with both non-empty it fails with
the invalid-configuration error exactly when the configured default priority
is set and invalid; otherwise it returns a ready hook. -/
theorem newHook_spec (apiKey endpoint : String) (config : HookConfig) :
    (NewHook apiKey endpoint config = Except.error HookError.missingCredential ↔
      apiKey = "") ∧
    (apiKey ≠ "" →
      (NewHook apiKey endpoint config = Except.error HookError.missingEndpoint ↔
        endpoint = "")) ∧
    (apiKey ≠ "" → endpoint ≠ "" →
      (NewHook apiKey endpoint config = Except.error HookError.invalidConfiguration ↔
        (config.DefaultPriority ≠ "" ∧ isValidPriority config.DefaultPriority = false))) ∧
    (apiKey ≠ "" → endpoint ≠ "" →
      (config.DefaultPriority = "" ∨ isValidPriority config.DefaultPriority = true) →
      ∃ hk, NewHook apiKey endpoint config = Except.ok hk) := by
  by_cases hA : apiKey = ""
  · simp [NewHook, hA]
  · by_cases hE : endpoint = ""
    · simp [NewHook, hA, hE]
    · rcases validate_cases config with ⟨hP, hok⟩ | ⟨hP, hval, hok⟩ | ⟨hP, hval, herr⟩
      · simp [NewHook, hA, hE, hok, hP]
      · simp [NewHook, hA, hE, hok, hP, hval]
      · simp [NewHook, hA, hE, herr, hP, hval]

/-- Witness for C7: empty credential gives the missing-credential error;
non-empty credential with empty endpoint gives the missing-endpoint error;
the ready case returns a hook. -/
theorem newHook_spec_witness :
    NewHook "" EndpointEU cfgEmpty = Except.error HookError.missingCredential ∧
    NewHook "key" "" cfgEmpty = Except.error HookError.missingEndpoint ∧
    NewHook "key" EndpointEU cfgEmpty = Except.ok hookEmpty := by
  refine ⟨(newHook_spec "" EndpointEU cfgEmpty).1.mpr rfl, ?_, ?_⟩
  · exact ((newHook_spec "key" "" cfgEmpty).2.1 (by decide)).mpr rfl
  · obtain ⟨hk, hhk⟩ := (newHook_spec "key" EndpointEU cfgEmpty).2.2.2
      (by decide) (by decide) (Or.inr (by decide))
    rw [show NewHook "key" EndpointEU cfgEmpty = Except.ok hookEmpty from rfl]

/-- Claim C9 (refuted by the code): the team-recipient list has the length of
the configured default team list, but every recipient denotes the last
configured team, not the i-th one: the Go loop appends the address of the
single range variable on every iteration. -/
theorem teams_loop_variable_bug :
    Hook.teams
        { apiKey := "key", endpoint := EndpointEU,
          config := { cfgEmpty with
            DefaultTeams := some [{ name := "team-a" }, { name := "team-b" }] } }
        { message := "m", data := [] }
      = [{ name := "team-b" }, { name := "team-b" }] ∧
    Hook.teams
        { apiKey := "key", endpoint := EndpointEU,
          config := { cfgEmpty with
            DefaultTeams := some [{ name := "team-a" }, { name := "team-b" }] } }
        { message := "m", data := [] }
      ≠ [{ name := "team-a" }, { name := "team-b" }] := by
  decide

end OpsgenieHook
